import Mathlib

/-!
# Verification of `file_integrity_monitor.py`

A shallow embedding of the file-integrity monitor: hashing with chunked
reads, directory scanning with per-file exception isolation, JSON-level
persistence of hash snapshots, the three-way snapshot diff, and the CLI
entry point.  Python dictionaries (`str -> str`) are embedded as
association lists with insertion order; Python exceptions are embedded
as `Except` values; the `hashlib` module is embedded abstractly through
its documented streaming contract (updating with consecutive chunks is
equivalent to updating with their concatenation, and `hexdigest` is the
lowercase hexadecimal encoding of the digest bytes).
-/

namespace FIM

/-- A snapshot is a Python dict `path -> digest`: an association list,
keys unique by construction in the program (dict semantics). -/
abbrev Snapshot : Type := List (String × String)

/-- The key set of a dict, in insertion order (`set(d)` iterates keys). -/
def keys (s : Snapshot) : List String := s.map Prod.fst

/-- Python dict subscript `d[k]`, as an optional lookup (first match;
dicts never hold a duplicate key). -/
def lookup (s : Snapshot) (p : String) : Option String := List.lookup p s

/-- `compare_hashes(old_hashes, new_hashes)` (source lines 38-55): the
three lists `added`, `removed`, `changed` built from the key sets.
Set iteration order in Python is unspecified; we realise each set
operation as a filter over the keys in insertion order, which has the
same membership. -/
def compare_hashes (old_hashes new_hashes : Snapshot) :
    List String × List String × List String :=
  let old_files := keys old_hashes
  let new_files := keys new_hashes
  let added := new_files.filter (fun f => decide (f ∉ old_files))
  let removed := old_files.filter (fun f => decide (f ∉ new_files))
  let changed := (new_files.filter (fun f => decide (f ∈ old_files))).filter
    (fun f => decide (lookup old_hashes f ≠ lookup new_hashes f))
  (added, removed, changed)

theorem mem_added_iff (old_hashes new_hashes : Snapshot) (p : String) :
    p ∈ (compare_hashes old_hashes new_hashes).1 ↔
      p ∈ keys new_hashes ∧ p ∉ keys old_hashes := by
  simp [compare_hashes, List.mem_filter]

theorem mem_removed_iff (old_hashes new_hashes : Snapshot) (p : String) :
    p ∈ (compare_hashes old_hashes new_hashes).2.1 ↔
      p ∈ keys old_hashes ∧ p ∉ keys new_hashes := by
  simp [compare_hashes, List.mem_filter]

theorem mem_changed_iff (old_hashes new_hashes : Snapshot) (p : String) :
    p ∈ (compare_hashes old_hashes new_hashes).2.2 ↔
      p ∈ keys new_hashes ∧ p ∈ keys old_hashes ∧
        lookup old_hashes p ≠ lookup new_hashes p := by
  simp only [compare_hashes, List.mem_filter, decide_eq_true_eq]
  tauto

/-- C1: `compare_hashes` returns exactly the three sets
Added = keys(current) minus keys(baseline), Removed = keys(baseline) minus
keys(current), and Changed = the paths in both key sets whose digests
differ; a path in both snapshots with equal digests appears in none of
the three results. -/
theorem claim_C1_compare_hashes_sets (old_hashes new_hashes : Snapshot) (p : String) :
    (p ∈ (compare_hashes old_hashes new_hashes).1 ↔
        p ∈ keys new_hashes ∧ p ∉ keys old_hashes) ∧
    (p ∈ (compare_hashes old_hashes new_hashes).2.1 ↔
        p ∈ keys old_hashes ∧ p ∉ keys new_hashes) ∧
    (p ∈ (compare_hashes old_hashes new_hashes).2.2 ↔
        p ∈ keys old_hashes ∧ p ∈ keys new_hashes ∧
          lookup old_hashes p ≠ lookup new_hashes p) ∧
    (p ∈ keys old_hashes → p ∈ keys new_hashes →
      lookup old_hashes p = lookup new_hashes p →
        p ∉ (compare_hashes old_hashes new_hashes).1 ∧
        p ∉ (compare_hashes old_hashes new_hashes).2.1 ∧
        p ∉ (compare_hashes old_hashes new_hashes).2.2) := by
  refine ⟨mem_added_iff _ _ _, mem_removed_iff _ _ _, ?_, ?_⟩
  · rw [mem_changed_iff]
    tauto
  · intro ho hn he
    rw [mem_added_iff, mem_removed_iff, mem_changed_iff]
    tauto

theorem claim_C1_compare_hashes_sets_witness :
    "a" ∈ keys [("a", "h1")] ∧ "a" ∈ keys [("a", "h1"), ("b", "h2")] ∧
    lookup [("a", "h1")] "a" = lookup [("a", "h1"), ("b", "h2")] "a" ∧
    ("a" ∉ (compare_hashes [("a", "h1")] [("a", "h1"), ("b", "h2")]).1 ∧
     "a" ∉ (compare_hashes [("a", "h1")] [("a", "h1"), ("b", "h2")]).2.1 ∧
     "a" ∉ (compare_hashes [("a", "h1")] [("a", "h1"), ("b", "h2")]).2.2) :=
  ⟨by decide, by decide, by decide,
    (claim_C1_compare_hashes_sets [("a", "h1")] [("a", "h1"), ("b", "h2")] "a").2.2.2
      (by decide) (by decide) (by decide)⟩

/-- C2: every path in the union of the two key sets falls in exactly one
of the four classes Added, Removed, Changed, unchanged — it appears in at
most one of the three returned lists, and in none exactly when it is in
both snapshots with equal digests. -/
theorem claim_C2_diff_complete (old_hashes new_hashes : Snapshot) (p : String)
    (hp : p ∈ keys old_hashes ∨ p ∈ keys new_hashes) :
    (p ∈ (compare_hashes old_hashes new_hashes).1 ∧
      p ∉ (compare_hashes old_hashes new_hashes).2.1 ∧
      p ∉ (compare_hashes old_hashes new_hashes).2.2) ∨
    (p ∉ (compare_hashes old_hashes new_hashes).1 ∧
      p ∈ (compare_hashes old_hashes new_hashes).2.1 ∧
      p ∉ (compare_hashes old_hashes new_hashes).2.2) ∨
    (p ∉ (compare_hashes old_hashes new_hashes).1 ∧
      p ∉ (compare_hashes old_hashes new_hashes).2.1 ∧
      p ∈ (compare_hashes old_hashes new_hashes).2.2) ∨
    (p ∉ (compare_hashes old_hashes new_hashes).1 ∧
      p ∉ (compare_hashes old_hashes new_hashes).2.1 ∧
      p ∉ (compare_hashes old_hashes new_hashes).2.2 ∧
      p ∈ keys old_hashes ∧ p ∈ keys new_hashes ∧
      lookup old_hashes p = lookup new_hashes p) := by
  rw [mem_added_iff, mem_removed_iff, mem_changed_iff]
  by_cases ho : p ∈ keys old_hashes
  · by_cases hn : p ∈ keys new_hashes
    · by_cases he : lookup old_hashes p = lookup new_hashes p
      · exact Or.inr (Or.inr (Or.inr
          ⟨fun h => h.2 ho, fun h => h.2 hn, fun h => h.2.2 he, ho, hn, he⟩))
      · exact Or.inr (Or.inr (Or.inl
          ⟨fun h => h.2 ho, fun h => h.2 hn, hn, ho, he⟩))
    · exact Or.inr (Or.inl ⟨fun h => hn h.1, ⟨ho, hn⟩, fun h => hn h.1⟩)
  · have hn : p ∈ keys new_hashes := hp.elim (fun h => absurd h ho) id
    exact Or.inl ⟨⟨hn, ho⟩, fun h => ho h.1, fun h => ho h.2.1⟩

theorem claim_C2_diff_complete_witness :
    ("a" ∈ keys [("a", "h1")] ∨ "a" ∈ keys [("a", "h2")]) ∧
    (("a" ∈ (compare_hashes [("a", "h1")] [("a", "h2")]).1 ∧
       "a" ∉ (compare_hashes [("a", "h1")] [("a", "h2")]).2.1 ∧
       "a" ∉ (compare_hashes [("a", "h1")] [("a", "h2")]).2.2) ∨
     ("a" ∉ (compare_hashes [("a", "h1")] [("a", "h2")]).1 ∧
       "a" ∈ (compare_hashes [("a", "h1")] [("a", "h2")]).2.1 ∧
       "a" ∉ (compare_hashes [("a", "h1")] [("a", "h2")]).2.2) ∨
     ("a" ∉ (compare_hashes [("a", "h1")] [("a", "h2")]).1 ∧
       "a" ∉ (compare_hashes [("a", "h1")] [("a", "h2")]).2.1 ∧
       "a" ∈ (compare_hashes [("a", "h1")] [("a", "h2")]).2.2) ∨
     ("a" ∉ (compare_hashes [("a", "h1")] [("a", "h2")]).1 ∧
       "a" ∉ (compare_hashes [("a", "h1")] [("a", "h2")]).2.1 ∧
       "a" ∉ (compare_hashes [("a", "h1")] [("a", "h2")]).2.2 ∧
       "a" ∈ keys [("a", "h1")] ∧ "a" ∈ keys [("a", "h2")] ∧
       lookup [("a", "h1")] "a" = lookup [("a", "h2")] "a")) :=
  ⟨by decide, claim_C2_diff_complete [("a", "h1")] [("a", "h2")] "a" (by decide)⟩

/-- C3: the three lists returned by `compare_hashes` are pairwise
disjoint: no path occurs in more than one of Added, Removed, Changed. -/
theorem claim_C3_diff_disjoint (old_hashes new_hashes : Snapshot) :
    List.Disjoint (compare_hashes old_hashes new_hashes).1
      (compare_hashes old_hashes new_hashes).2.1 ∧
    List.Disjoint (compare_hashes old_hashes new_hashes).1
      (compare_hashes old_hashes new_hashes).2.2 ∧
    List.Disjoint (compare_hashes old_hashes new_hashes).2.1
      (compare_hashes old_hashes new_hashes).2.2 := by
  refine ⟨fun p ha hr => ?_, fun p ha hc => ?_, fun p hr hc => ?_⟩
  · rw [mem_added_iff] at ha
    rw [mem_removed_iff] at hr
    tauto
  · rw [mem_added_iff] at ha
    rw [mem_changed_iff] at hc
    tauto
  · rw [mem_removed_iff] at hr
    rw [mem_changed_iff] at hc
    tauto

theorem claim_C3_diff_disjoint_witness :
    List.Disjoint (compare_hashes [("a", "h1"), ("b", "h2")] [("b", "h3"), ("c", "h4")]).1
      (compare_hashes [("a", "h1"), ("b", "h2")] [("b", "h3"), ("c", "h4")]).2.1 :=
  (claim_C3_diff_disjoint [("a", "h1"), ("b", "h2")] [("b", "h3"), ("c", "h4")]).1

/-! ## The Hasher (`calculate_file_hash`, source lines 8-14)

`hashlib` is a library, embedded through its documented contract: a hash
object's `update` may receive the content in any chunking — feeding
consecutive chunks is equivalent to feeding their concatenation — and
`hexdigest()` is the lowercase hexadecimal encoding of the digest bytes.
We therefore embed a hash object's state extensionally as the list of
bytes absorbed so far, an algorithm as its digest function on full
contents (bytes to digest bytes), and `hexdigest` as explicit lowercase
hex encoding of the digest bytes. -/

/-- An algorithm from `hashlib` (e.g. `hashlib.sha256`): its digest
function from full content bytes to digest bytes. -/
structure HashAlg where
  digestBytes : List Nat → List Nat

/-- Hash-object state: the bytes absorbed by `update` calls so far. -/
abbrev HashState : Type := List Nat

/-- `hash_func.update(chunk)`. -/
def hash_update (st : HashState) (chunk : List Nat) : HashState := st ++ chunk

/-- The sixteen lowercase hexadecimal digit characters. -/
def hexChars : List Char := "0123456789abcdef".data

/-- Lowercase hexadecimal encoding of a byte list (two digits per byte). -/
def hexEncode (bs : List Nat) : String :=
  ⟨bs.flatMap (fun b => [hexChars.getD (b / 16 % 16) '0', hexChars.getD (b % 16) '0'])⟩

/-- `hash_func.hexdigest()`: lowercase hex encoding of the digest of the
absorbed bytes. -/
def hexdigest (alg : HashAlg) (st : HashState) : String := hexEncode (alg.digestBytes st)

/-- The `while chunk := f.read(8192)` loop's reads: the file content cut
into chunks of `csize` bytes (the last one shorter).  `csize = 0` never
occurs in the program (the source uses 8192). -/
def readChunks (csize : Nat) (content : List Nat) : List (List Nat) :=
  if h : csize = 0 ∨ content = [] then []
  else content.take csize :: readChunks csize (content.drop csize)
termination_by content.length
decreasing_by
  push_neg at h
  simp only [List.length_drop]
  exact Nat.sub_lt (List.length_pos.mpr h.2) (Nat.pos_of_ne_zero h.1)

/-- `calculate_file_hash(file_path, algorithm)` on the file's content
bytes: start from a fresh hash object, feed each 8192-byte read, return
`hexdigest()`. -/
def calculate_file_hash (alg : HashAlg) (content : List Nat) : String :=
  hexdigest alg ((readChunks 8192 content).foldl hash_update [])

/-- The same computation with an arbitrary read size, to state chunk-size
independence. -/
def calculate_file_hash_chunked (alg : HashAlg) (csize : Nat) (content : List Nat) : String :=
  hexdigest alg ((readChunks csize content).foldl hash_update [])

theorem foldl_hash_update (cs : List (List Nat)) (st : HashState) :
    cs.foldl hash_update st = st ++ cs.flatten := by
  induction cs generalizing st with
  | nil => simp
  | cons c cs ih => simp [hash_update, ih, List.append_assoc]

theorem readChunks_flatten (csize : Nat) (hc : csize ≠ 0) (content : List Nat) :
    (readChunks csize content).flatten = content := by
  generalize hl : content.length = n
  induction n using Nat.strong_induction_on generalizing content with
  | _ n ih =>
    rw [readChunks]
    split
    · rcases ‹csize = 0 ∨ content = []› with h | h
      · exact absurd h hc
      · simp [h]
    · rename_i h
      push_neg at h
      simp only [List.flatten_cons]
      rw [ih (content.drop csize).length ?_ (content.drop csize) rfl]
      · exact List.take_append_drop csize content
      · subst hl
        simp only [List.length_drop]
        exact Nat.sub_lt (List.length_pos.mpr h.2) (Nat.pos_of_ne_zero h.1)

theorem hexChars_getD_mem (i : Nat) (hi : i < 16) :
    hexChars.getD i (Char.ofNat 48) ∈ hexChars := by
  have hl : i < hexChars.length := by
    have : hexChars.length = 16 := by decide
    omega
  rw [List.getD_eq_getElem hexChars _ hl]
  exact List.getElem_mem hl

theorem hexEncode_chars (bs : List Nat) :
    ((hexEncode bs).data.all (fun c => hexChars.contains c)) = true := by
  rw [List.all_eq_true]
  intro c hc
  have hc2 : c ∈ bs.flatMap
      (fun b => [hexChars.getD (b / 16 % 16) '0', hexChars.getD (b % 16) '0']) := hc
  rw [List.mem_flatMap] at hc2
  obtain ⟨b, _, hcb⟩ := hc2
  have h0 : '0' = Char.ofNat 48 := by decide
  have hmem : c ∈ hexChars := by
    rcases List.mem_cons.mp hcb with h | hcb2
    · rw [h, h0]
      exact hexChars_getD_mem (b / 16 % 16) (Nat.mod_lt _ (by decide))
    · rcases List.mem_cons.mp hcb2 with h | hnil
      · rw [h, h0]
        exact hexChars_getD_mem (b % 16) (Nat.mod_lt _ (by decide))
      · cases hnil
  exact List.elem_iff.mpr hmem

/-- C5: for every content and algorithm, `calculate_file_hash` returns
the lowercase hexadecimal encoding of the algorithm's digest of the full
content, and the result is identical for any read chunk size of at least
one byte — in particular the source's 8192-byte chunking equals feeding
the whole content in one update. -/
theorem claim_C5_hash_chunk_invariant (alg : HashAlg) (content : List Nat)
    (csize : Nat) (hc : 1 ≤ csize) :
    calculate_file_hash_chunked alg csize content
        = hexEncode (alg.digestBytes content) ∧
    calculate_file_hash alg content = hexEncode (alg.digestBytes content) ∧
    calculate_file_hash alg content = calculate_file_hash_chunked alg csize content ∧
    calculate_file_hash alg content = hexdigest alg (hash_update [] content) ∧
    ((calculate_file_hash alg content).data.all (fun c => hexChars.contains c)) = true := by
  have key : ∀ n : Nat, n ≠ 0 →
      calculate_file_hash_chunked alg n content = hexEncode (alg.digestBytes content) := by
    intro n hn
    rw [calculate_file_hash_chunked, hexdigest, foldl_hash_update, List.nil_append,
      readChunks_flatten n hn]
  have h8192 : calculate_file_hash alg content = hexEncode (alg.digestBytes content) := by
    rw [calculate_file_hash, hexdigest, foldl_hash_update, List.nil_append,
      readChunks_flatten 8192 (by decide)]
  refine ⟨key csize (by omega), h8192, ?_, ?_, ?_⟩
  · rw [h8192, key csize (by omega)]
  · rw [h8192, hexdigest, hash_update, List.nil_append]
  · rw [h8192]
    exact hexEncode_chars _

/-- A stand-in algorithm used to instantiate the hasher theorems. -/
def mockAlg : HashAlg := ⟨fun bs => bs⟩

theorem claim_C5_hash_chunk_invariant_witness :
    1 ≤ 3 ∧
    (calculate_file_hash_chunked mockAlg 3 [0, 255, 16]
        = hexEncode (mockAlg.digestBytes [0, 255, 16]) ∧
     calculate_file_hash mockAlg [0, 255, 16]
        = hexEncode (mockAlg.digestBytes [0, 255, 16]) ∧
     calculate_file_hash mockAlg [0, 255, 16]
        = calculate_file_hash_chunked mockAlg 3 [0, 255, 16] ∧
     calculate_file_hash mockAlg [0, 255, 16]
        = hexdigest mockAlg (hash_update [] [0, 255, 16]) ∧
     ((calculate_file_hash mockAlg [0, 255, 16]).data.all
        (fun c => hexChars.contains c)) = true) :=
  ⟨by decide, claim_C5_hash_chunk_invariant mockAlg [0, 255, 16] 3 (by decide)⟩

/-! ## The Tree Scanner (`scan_directory`, source lines 16-26) -/

/-- A Python exception raised while hashing one file; both kinds are
subclasses of `Exception`, the class caught on source line 24. -/
inductive PyExn where
  /-- `getattr(hashlib, algorithm)` failed: `hashlib` has no such attribute. -/
  | attributeError (missing : String)
  /-- `open(file_path, "rb")` or a read of it failed. -/
  | ioError (path : String)
  deriving DecidableEq, Repr

/-- The ambient environment of one run: which names are attributes of the
`hashlib` module (and the algorithm each denotes), and each file's
readable content (`none` meaning opening or reading raises `IOError`). -/
structure Env where
  hashlibAttr : String → Option HashAlg
  readFile : String → Option (List Nat)

/-- `calculate_file_hash(file_path, algorithm)` as run on a path:
`getattr(hashlib, algorithm)()` on line 10 raises `AttributeError` for an
unknown name; the `open`/read on lines 11-13 raises `IOError` for an
unreadable file; otherwise the digest of the content is returned. -/
def calculate_file_hash_run (env : Env) (file_path algorithm : String) :
    Except PyExn String :=
  match env.hashlibAttr algorithm with
  | none => .error (.attributeError algorithm)
  | some alg =>
    match env.readFile file_path with
    | none => .error (.ioError file_path)
    | some content => .ok (calculate_file_hash alg content)

/-- The directory tree under the root passed to the program: whether the
root is listable, and the regular files below it (full paths in the order
`os.walk` yields them; distinct by construction of a walk). -/
structure FS where
  rootExists : Bool
  files : List String

/-- `os.walk(directory)` with its default `onerror=None`: errors while
listing (missing or unreadable root) are silently swallowed, so a bad
root yields no files at all instead of raising. -/
def walk (fs : FS) : List String := if fs.rootExists then fs.files else []

/-- Python dict assignment `d[k] = v`: replaces the value in place when
the key is present (keeping its position), otherwise appends the pair. -/
def dictInsert (d : Snapshot) (k v : String) : Snapshot :=
  match d with
  | [] => [(k, v)]
  | (k0, v0) :: rest =>
    if k0 = k then (k0, v) :: rest else (k0, v0) :: dictInsert rest k v

theorem keys_cons (kv : String × String) (d : Snapshot) :
    keys (kv :: d) = kv.1 :: keys d := rfl

theorem dictInsert_of_not_mem (d : Snapshot) (k v : String) (h : k ∉ keys d) :
    dictInsert d k v = d ++ [(k, v)] := by
  induction d with
  | nil => rfl
  | cons kv rest ih =>
    rw [keys_cons, List.mem_cons] at h
    push_neg at h
    obtain ⟨k0, v0⟩ := kv
    rw [dictInsert, if_neg (fun he => h.1 he.symm), ih h.2, List.cons_append]

/-- `scan_directory(directory, algorithm)` (source lines 16-26): walk the
tree, try to hash each file; on success store `path -> digest` in the
dict, on any `Exception` record the non-fatal report (the `print` on
line 25) and continue with the next file.  Returns the dict together
with the reports. -/
def scan_directory (env : Env) (fs : FS) (algorithm : String) :
    Snapshot × List (String × PyExn) :=
  (walk fs).foldl
    (fun acc file_path =>
      match calculate_file_hash_run env file_path algorithm with
      | .ok d => (dictInsert acc.1 file_path d, acc.2)
      | .error e => (acc.1, acc.2 ++ [(file_path, e)]))
    ([], [])

theorem scan_foldl_spec (env : Env) (algorithm : String) (l : List String)
    (acc1 : Snapshot) (acc2 : List (String × PyExn))
    (hnd : l.Nodup) (hfresh : ∀ p ∈ l, p ∉ keys acc1) :
    l.foldl
      (fun acc file_path =>
        match calculate_file_hash_run env file_path algorithm with
        | .ok d => (dictInsert acc.1 file_path d, acc.2)
        | .error e => (acc.1, acc.2 ++ [(file_path, e)]))
      (acc1, acc2) =
    (acc1 ++ l.filterMap (fun p =>
        ((calculate_file_hash_run env p algorithm).toOption).map (fun d => (p, d))),
     acc2 ++ l.filterMap (fun p =>
        match calculate_file_hash_run env p algorithm with
        | .ok _ => none
        | .error e => some (p, e))) := by
  induction l generalizing acc1 acc2 with
  | nil => simp
  | cons p l ih =>
    rw [List.foldl_cons, List.filterMap_cons, List.filterMap_cons]
    rcases List.nodup_cons.mp hnd with ⟨hpl, hl⟩
    cases hcall : calculate_file_hash_run env p algorithm with
    | ok d =>
      simp only [hcall, Except.toOption, Option.map_some']
      rw [dictInsert_of_not_mem acc1 p d (hfresh p (List.mem_cons_self p l))]
      rw [ih (acc1 ++ [(p, d)]) acc2 hl ?_]
      · rw [List.append_assoc]
        rfl
      · intro q hq
        rw [keys, List.map_append, List.mem_append]
        rintro (hq1 | hq2)
        · exact hfresh q (List.mem_cons_of_mem p hq) hq1
        · simp only [List.map_cons, List.map_nil, List.mem_singleton] at hq2
          exact hpl (hq2 ▸ hq)
    | error e =>
      simp only [hcall, Except.toOption, Option.map_none']
      rw [ih acc1 (acc2 ++ [(p, e)]) hl (fun q hq => hfresh q (List.mem_cons_of_mem p hq))]
      rw [List.append_assoc]
      rfl

theorem scan_directory_spec (env : Env) (fs : FS) (algorithm : String)
    (hnd : (walk fs).Nodup) :
    scan_directory env fs algorithm =
      ((walk fs).filterMap (fun p =>
          ((calculate_file_hash_run env p algorithm).toOption).map (fun d => (p, d))),
       (walk fs).filterMap (fun p =>
          match calculate_file_hash_run env p algorithm with
          | .ok _ => none
          | .error e => some (p, e))) := by
  rw [scan_directory, scan_foldl_spec env algorithm (walk fs) [] [] hnd
    (fun p _ hp => by cases hp)]
  rfl

theorem filterMap_ne_eq_filter (l : List String) (p0 : String) :
    l.filterMap (fun p => if p = p0 then none else some p)
      = l.filter (fun p => decide (p ≠ p0)) := by
  induction l with
  | nil => rfl
  | cons q l ih =>
    by_cases hq : q = p0 <;>
      simp [List.filterMap_cons, List.filter_cons, hq, ih]

theorem length_filter_ne (l : List String) (p0 : String) (hnd : l.Nodup)
    (hp : p0 ∈ l) :
    (l.filter (fun p => decide (p ≠ p0))).length = l.length - 1 := by
  induction l with
  | nil => cases hp
  | cons q l ih =>
    rcases List.nodup_cons.mp hnd with ⟨hql, hl⟩
    rcases List.mem_cons.mp hp with h | h
    · subst h
      rw [List.filter_cons, if_neg (by simp)]
      rw [List.filter_eq_self.mpr (fun a ha => by
        simp only [ne_eq, decide_eq_true_eq]
        exact fun he => hql (he ▸ ha))]
      simp
    · have hqp : q ≠ p0 := fun he => hql (he ▸ h)
      rw [List.filter_cons, if_pos (by simp [hqp])]
      simp only [List.length_cons]
      rw [ih hl h]
      have : 1 ≤ l.length := List.length_pos.mpr (List.ne_nil_of_mem h)
      omega

theorem filterMap_eq_single (l : List String) (p0 : String) {β : Type}
    (x : β) (f : String → Option β) (hnd : l.Nodup) (hp : p0 ∈ l)
    (hf0 : f p0 = some x) (hfn : ∀ p ∈ l, p ≠ p0 → f p = none) :
    l.filterMap f = [x] := by
  induction l with
  | nil => cases hp
  | cons q l ih =>
    rcases List.nodup_cons.mp hnd with ⟨hql, hl⟩
    rcases List.mem_cons.mp hp with h | h
    · rw [List.filterMap_cons, ← h, hf0]
      have hnil : l.filterMap f = [] := by
        rw [List.filterMap_eq_nil_iff]
        intro a ha
        apply hfn a (List.mem_cons_of_mem _ ha)
        intro he
        rw [he, h] at ha
        exact hql ha
      rw [hnil]
    · have hqp : q ≠ p0 := fun he => hql (he ▸ h)
      rw [List.filterMap_cons, hfn q (List.mem_cons_self q l) hqp]
      exact ih hl h (fun p hpl hppo => hfn p (List.mem_cons_of_mem q hpl) hppo)

/-- C10: per-file hashing failures of every kind — `IOError` and the
`AttributeError` raised by `getattr` on an unknown algorithm name alike —
are caught inside the per-file loop of `scan_directory` and never
propagate: a snapshot entry exists exactly for the files whose hashing
succeeded (with the digest hashing produced), and a non-fatal report
exists exactly for the files whose hashing raised. -/
theorem claim_C10_scan_isolates_exceptions (env : Env) (fs : FS)
    (algorithm : String) (hnd : (walk fs).Nodup) :
    (∀ p d, (p, d) ∈ (scan_directory env fs algorithm).1 ↔
        p ∈ walk fs ∧ calculate_file_hash_run env p algorithm = .ok d) ∧
    (∀ p e, (p, e) ∈ (scan_directory env fs algorithm).2 ↔
        p ∈ walk fs ∧ calculate_file_hash_run env p algorithm = .error e) := by
  rw [scan_directory_spec env fs algorithm hnd]
  constructor
  · intro p d
    rw [List.mem_filterMap]
    constructor
    · rintro ⟨q, hq, hf⟩
      cases hcall : calculate_file_hash_run env q algorithm with
      | ok d0 =>
        rw [hcall] at hf
        simp only [Except.toOption, Option.map_some', Option.some.injEq] at hf
        obtain ⟨hq1, hq2⟩ := Prod.mk.injEq .. ▸ hf
        exact ⟨hq1 ▸ hq, by rw [← hq1, hcall, hq2]⟩
      | error e =>
        rw [hcall] at hf
        simp [Except.toOption] at hf
    · rintro ⟨hp, hcall⟩
      exact ⟨p, hp, by rw [hcall]; rfl⟩
  · intro p e
    rw [List.mem_filterMap]
    constructor
    · rintro ⟨q, hq, hf⟩
      cases hcall : calculate_file_hash_run env q algorithm with
      | ok d0 =>
        rw [hcall] at hf
        cases hf
      | error e0 =>
        rw [hcall] at hf
        simp only [Option.some.injEq] at hf
        obtain ⟨hq1, hq2⟩ := Prod.mk.injEq .. ▸ hf
        exact ⟨hq1 ▸ hq, by rw [← hq1, hcall, hq2]⟩
    · rintro ⟨hp, hcall⟩
      exact ⟨p, hp, by rw [hcall]⟩

/-- A stand-in environment used to instantiate the scanner theorems:
`hashlib` has exactly the attribute `sha256`, and exactly the file
`/r/bad` is unreadable. -/
def mockEnv : Env :=
  ⟨fun a => if a = "sha256" then some mockAlg else none,
   fun p => if p = "/r/bad" then none else some [0, 255]⟩

theorem claim_C10_scan_isolates_exceptions_witness :
    (walk ⟨true, ["/r/good", "/r/bad"]⟩).Nodup ∧
    ((∀ p d, (p, d) ∈ (scan_directory mockEnv ⟨true, ["/r/good", "/r/bad"]⟩ "md4").1 ↔
        p ∈ walk ⟨true, ["/r/good", "/r/bad"]⟩ ∧
          calculate_file_hash_run mockEnv p "md4" = .ok d) ∧
     (∀ p e, (p, e) ∈ (scan_directory mockEnv ⟨true, ["/r/good", "/r/bad"]⟩ "md4").2 ↔
        p ∈ walk ⟨true, ["/r/good", "/r/bad"]⟩ ∧
          calculate_file_hash_run mockEnv p "md4" = .error e)) :=
  ⟨by decide,
    claim_C10_scan_isolates_exceptions mockEnv ⟨true, ["/r/good", "/r/bad"]⟩ "md4" (by decide)⟩

/-- C4: one unreadable file among N does not abort the scan — the
returned snapshot holds exactly the N-1 successfully hashed paths with
their digests, and the single failure is reported non-fatally. -/
theorem claim_C4_scan_failure_isolation (env : Env) (fs : FS)
    (algorithm : String) (alg : HashAlg) (p0 : String)
    (ha : env.hashlibAttr algorithm = some alg)
    (hnd : (walk fs).Nodup) (hp0 : p0 ∈ walk fs)
    (hfail : env.readFile p0 = none)
    (hok : ∀ p ∈ walk fs, p ≠ p0 → ∃ c, env.readFile p = some c) :
    keys (scan_directory env fs algorithm).1
        = (walk fs).filter (fun p => decide (p ≠ p0)) ∧
    (scan_directory env fs algorithm).1.length = (walk fs).length - 1 ∧
    (scan_directory env fs algorithm).2 = [(p0, PyExn.ioError p0)] ∧
    (∀ p c, p ∈ walk fs → env.readFile p = some c →
      (p, calculate_file_hash alg c) ∈ (scan_directory env fs algorithm).1) := by
  rw [scan_directory_spec env fs algorithm hnd]
  have hkeys : keys ((walk fs).filterMap (fun p =>
      ((calculate_file_hash_run env p algorithm).toOption).map (fun d => (p, d))))
      = (walk fs).filter (fun p => decide (p ≠ p0)) := by
    rw [keys, List.map_filterMap, ← filterMap_ne_eq_filter]
    apply List.filterMap_congr
    intro p hp
    by_cases hpp : p = p0
    · subst hpp
      rw [calculate_file_hash_run, ha, hfail]
      simp [Except.toOption]
    · obtain ⟨c, hc⟩ := hok p hp hpp
      rw [calculate_file_hash_run, ha, hc]
      simp [Except.toOption, hpp]
  refine ⟨hkeys, ?_, ?_, ?_⟩
  · have : ((walk fs).filterMap (fun p =>
        ((calculate_file_hash_run env p algorithm).toOption).map (fun d => (p, d)))).length
        = (keys ((walk fs).filterMap (fun p =>
            ((calculate_file_hash_run env p algorithm).toOption).map
              (fun d => (p, d))))).length := by
      rw [keys, List.length_map]
    rw [this, hkeys, length_filter_ne (walk fs) p0 hnd hp0]
  · apply filterMap_eq_single (walk fs) p0 _ _ hnd hp0
    · rw [calculate_file_hash_run, ha, hfail]
    · intro p hp hpp
      obtain ⟨c, hc⟩ := hok p hp hpp
      rw [calculate_file_hash_run, ha, hc]
  · intro p c hp hc
    rw [List.mem_filterMap]
    refine ⟨p, hp, ?_⟩
    rw [calculate_file_hash_run, ha, hc]
    rfl

theorem claim_C4_scan_failure_isolation_witness :
    mockEnv.hashlibAttr "sha256" = some mockAlg ∧
    (walk ⟨true, ["/r/good", "/r/bad", "/r/ok"]⟩).Nodup ∧
    "/r/bad" ∈ walk ⟨true, ["/r/good", "/r/bad", "/r/ok"]⟩ ∧
    mockEnv.readFile "/r/bad" = none ∧
    (keys (scan_directory mockEnv ⟨true, ["/r/good", "/r/bad", "/r/ok"]⟩ "sha256").1
        = (walk ⟨true, ["/r/good", "/r/bad", "/r/ok"]⟩).filter
            (fun p => decide (p ≠ "/r/bad")) ∧
     (scan_directory mockEnv ⟨true, ["/r/good", "/r/bad", "/r/ok"]⟩ "sha256").1.length
        = (walk ⟨true, ["/r/good", "/r/bad", "/r/ok"]⟩).length - 1 ∧
     (scan_directory mockEnv ⟨true, ["/r/good", "/r/bad", "/r/ok"]⟩ "sha256").2
        = [("/r/bad", PyExn.ioError "/r/bad")] ∧
     (∀ p c, p ∈ walk ⟨true, ["/r/good", "/r/bad", "/r/ok"]⟩ →
        mockEnv.readFile p = some c →
        (p, calculate_file_hash mockAlg c) ∈
          (scan_directory mockEnv ⟨true, ["/r/good", "/r/bad", "/r/ok"]⟩ "sha256").1)) :=
  ⟨rfl, by decide, by decide, rfl,
    claim_C4_scan_failure_isolation mockEnv ⟨true, ["/r/good", "/r/bad", "/r/ok"]⟩
      "sha256" mockAlg "/r/bad" rfl (by decide) (by decide) rfl
      (fun p hp hpp => by
        have hp2 : p = "/r/good" ∨ p = "/r/bad" ∨ p = "/r/ok" := by
          simpa [walk] using hp
        rcases hp2 with h | h | h
        · exact ⟨[0, 255], by rw [h]; rfl⟩
        · exact absurd h hpp
        · exact ⟨[0, 255], by rw [h]; rfl⟩)⟩

/-! ## The Snapshot Store (`load_hashes`/`save_hashes`, source lines 28-36)

Persistence goes through `json.dump`/`json.load` on `file_hashes.json`.
Character-level serialisation is a detail of the `json` library; the
store is embedded at the JSON-value level: `json.dump` writes the JSON
value of the dict and `json.load` parses it back, rebuilding the dict
pair by pair (a later duplicate key would overwrite, as in Python). -/

/-- A JSON document as relevant to the baseline store. -/
inductive Json where
  | str (s : String)
  | obj (members : List (String × Json))
  | other
  deriving Repr

/-- `save_hashes(hashes)` (source lines 34-36): the JSON value
`json.dump` writes for a `str -> str` dict. -/
def save_hashes (hashes : Snapshot) : Json :=
  .obj (hashes.map (fun kv => (kv.1, Json.str kv.2)))

/-- `json.load` on a baseline document: an object whose values are all
strings yields the dict (pairs inserted in order); any other shape is a
malformed baseline, `none` standing for the exception propagating out. -/
def json_load_snapshot : Json → Option Snapshot
  | .obj ms => ms.foldl
      (fun acc m => acc.bind (fun d =>
        match m.2 with
        | .str v => some (dictInsert d m.1 v)
        | _ => none))
      (some [])
  | _ => none

/-- `load_hashes(db_path)` (source lines 28-32): `{}` when no baseline
file exists (`os.path.exists` false, store `none`), otherwise the parse
of the stored document. -/
def load_hashes (db : Option Json) : Option Snapshot :=
  match db with
  | none => some []
  | some j => json_load_snapshot j

theorem keys_append (a b : Snapshot) : keys (a ++ b) = keys a ++ keys b :=
  List.map_append Prod.fst a b

theorem json_load_save_aux (s : Snapshot) :
    ∀ acc : Snapshot, (keys (acc ++ s)).Nodup →
      (s.map (fun kv => (kv.1, Json.str kv.2))).foldl
        (fun acc2 m => acc2.bind (fun d =>
          match m.2 with
          | Json.str v => some (dictInsert d m.1 v)
          | _ => none))
        (some acc) = some (acc ++ s) := by
  induction s with
  | nil => intro acc _; simp
  | cons kv s ih =>
    intro acc h
    obtain ⟨k, v⟩ := kv
    rw [List.map_cons, List.foldl_cons]
    have hsplit := List.nodup_append.mp (keys_append acc ((k, v) :: s) ▸ h)
    have hk : k ∉ keys acc := fun hmem =>
      hsplit.2.2 hmem (by rw [keys_cons]; exact List.mem_cons_self _ _)
    show (s.map (fun kv => (kv.1, Json.str kv.2))).foldl _ (some (dictInsert acc k v))
        = some (acc ++ (k, v) :: s)
    rw [dictInsert_of_not_mem acc k v hk]
    rw [ih (acc ++ [(k, v)]) (by rwa [List.append_assoc, List.singleton_append])]
    rw [List.append_assoc, List.singleton_append]

/-- C8: with no baseline file the load yields the empty snapshot rather
than failing, and a check against the empty baseline classifies every
current path as Added and nothing as Removed or Changed. -/
theorem claim_C8_missing_baseline (cur : Snapshot) :
    load_hashes none = some [] ∧
    (compare_hashes [] cur).1 = keys cur ∧
    (compare_hashes [] cur).2.1 = [] ∧
    (compare_hashes [] cur).2.2 = [] := by
  refine ⟨rfl, ?_, rfl, ?_⟩
  · rw [compare_hashes]
    exact List.filter_eq_self.mpr (fun a _ => by simp [keys])
  · rw [compare_hashes]
    have h1 : (keys cur).filter (fun f => decide (f ∈ keys ([] : Snapshot))) = [] :=
      List.filter_eq_nil_iff.mpr (fun a _ => by simp [keys])
    simp only [h1, List.filter_nil]

/-- C9: saving any snapshot and loading it back yields the same snapshot:
same key set, same digest per key, no loss. -/
theorem claim_C9_round_trip (s : Snapshot) (hnd : (keys s).Nodup) :
    load_hashes (some (save_hashes s)) = some s := by
  rw [load_hashes, save_hashes, json_load_snapshot]
  have := json_load_save_aux s [] (by simpa using hnd)
  simpa using this

theorem claim_C9_round_trip_witness :
    (keys [("a", "h1"), ("b", "h2")]).Nodup ∧
    load_hashes (some (save_hashes [("a", "h1"), ("b", "h2")]))
      = some [("a", "h1"), ("b", "h2")] :=
  ⟨by decide, claim_C9_round_trip [("a", "h1"), ("b", "h2")] (by decide)⟩

/-! ## The CLI (`main`, source lines 57-92) -/

/-- The outcome of one invocation of the script. -/
inductive MainResult where
  /-- `argparse` rejected the arguments — e.g. `--algorithm` not among
  the `choices` on line 61 — with a usage message and exit status 2,
  before any of the body of `main` runs. -/
  | usageError
  /-- An exception escaped `main` uncaught (e.g. `json.load` raised on a
  malformed baseline): traceback, exit status 1. -/
  | uncaught
  /-- `--init` mode finished: the fresh snapshot was saved.  Exit 0. -/
  | initDone (saved : Json) (hashReports : List (String × PyExn))
  /-- check mode finished: the diff was printed.  Exit 0. -/
  | checkDone (added removed changed : List String)
      (hashReports : List (String × PyExn))

/-- The process exit status of each outcome. -/
def exit_code : MainResult → Nat
  | .usageError => 2
  | .uncaught => 1
  | .initDone _ _ => 0
  | .checkDone _ _ _ _ => 0

/-- `main()` (source lines 57-89) plus the interpreter's exit behaviour.
`avail` is `hashlib.algorithms_available`, the `choices` of the
`--algorithm` option (line 61): `argparse` exits with a usage error
before anything else runs when the given value is not among the choices.
In `--init` mode the tree is scanned and the snapshot saved (lines
64-68); otherwise the baseline is loaded (line 71), the tree scanned
(line 72), and the diff computed and printed (lines 73-89).  The script
ends normally — exit status 0 — in both modes whether or not changes
were found; only an uncaught exception (malformed baseline) or the
argparse rejection gives a non-zero status. -/
def main (avail : List String) (env : Env) (fs : FS) (db : Option Json)
    (initFlag : Bool) (algorithm : String) : MainResult :=
  if algorithm ∉ avail then .usageError
  else if initFlag then
    let r := scan_directory env fs algorithm
    .initDone (save_hashes r.1) r.2
  else
    match load_hashes db with
    | none => .uncaught
    | some old_hashes =>
      let r := scan_directory env fs algorithm
      let d := compare_hashes old_hashes r.1
      .checkDone d.1 d.2.1 d.2.2 r.2

/-- C6: an algorithm identifier outside the supported set
(`hashlib.algorithms_available`) is rejected as a fatal usage error with
a non-zero status before any scanning begins, and no per-file hashing is
attempted — the outcome does not depend on the environment or the tree
at all. -/
theorem claim_C6_unsupported_algorithm_fail_fast (avail : List String)
    (env : Env) (fs : FS) (db : Option Json) (initFlag : Bool)
    (algorithm : String) (h : algorithm ∉ avail) :
    main avail env fs db initFlag algorithm = .usageError ∧
    exit_code (main avail env fs db initFlag algorithm) = 2 ∧
    (∀ (env2 : Env) (fs2 : FS), main avail env2 fs2 db initFlag algorithm
        = main avail env fs db initFlag algorithm) := by
  have hm : ∀ (env2 : Env) (fs2 : FS),
      main avail env2 fs2 db initFlag algorithm = .usageError := by
    intro env2 fs2
    rw [main, if_pos h]
  exact ⟨hm env fs, by rw [hm env fs]; rfl, fun env2 fs2 => by rw [hm env2 fs2, hm env fs]⟩

theorem claim_C6_unsupported_algorithm_fail_fast_witness :
    "md4" ∉ ["sha256", "sha1", "md5"] ∧
    (main ["sha256", "sha1", "md5"] mockEnv ⟨true, ["/r/good"]⟩ none false "md4"
        = MainResult.usageError ∧
     exit_code (main ["sha256", "sha1", "md5"] mockEnv ⟨true, ["/r/good"]⟩ none false "md4")
        = 2 ∧
     (∀ (env2 : Env) (fs2 : FS), main ["sha256", "sha1", "md5"] env2 fs2 none false "md4"
        = main ["sha256", "sha1", "md5"] mockEnv ⟨true, ["/r/good"]⟩ none false "md4")) :=
  ⟨by decide,
    claim_C6_unsupported_algorithm_fail_fast ["sha256", "sha1", "md5"] mockEnv
      ⟨true, ["/r/good"]⟩ none false "md4" (by decide)⟩

theorem compare_hashes_empty_current (old_hashes : Snapshot) :
    compare_hashes old_hashes [] = ([], keys old_hashes, []) := by
  rw [compare_hashes]
  refine congrArg₂ Prod.mk rfl (congrArg₂ Prod.mk ?_ rfl)
  exact List.filter_eq_self.mpr (fun a _ => by simp [keys])

/-- C7 counterexample: a missing root directory is not fatal.  With the
root unreadable, a supported algorithm and a well-formed baseline, the
check invocation runs to completion — `os.walk` swallows the listing
error, the scan returns the empty snapshot, the baseline paths are
printed as removed — and the exit status is 0, not the non-zero status
the claim requires. -/
theorem claim_C7_root_error_fatal_counterexample :
    main ["sha256"] mockEnv ⟨false, []⟩ (some (save_hashes [("a", "h1")]))
        false "sha256"
      = MainResult.checkDone [] ["a"] [] [] ∧
    exit_code (main ["sha256"] mockEnv ⟨false, []⟩ (some (save_hashes [("a", "h1")]))
        false "sha256") = 0 :=
  ⟨rfl, rfl⟩

/-- C7 amended: an IOError at the root of the scan is recovered silently
rather than surfaced: `os.walk` (default `onerror=None`) ignores it, the
scan returns an empty snapshot with no error reports, and a check
invocation with a supported algorithm and a loadable baseline terminates
with exit status 0, reporting every baseline path as Removed and nothing
as Added or Changed. -/
theorem claim_C7_root_error_recovered (avail : List String) (env : Env)
    (fs : FS) (db : Option Json) (old_hashes : Snapshot) (algorithm : String)
    (hroot : fs.rootExists = false)
    (halg : algorithm ∈ avail)
    (hdb : load_hashes db = some old_hashes) :
    scan_directory env fs algorithm = ([], []) ∧
    main avail env fs db false algorithm
      = MainResult.checkDone [] (keys old_hashes) [] [] ∧
    exit_code (main avail env fs db false algorithm) = 0 := by
  have hw : walk fs = [] := by
    rw [walk, hroot]
    rfl
  have hscan : scan_directory env fs algorithm = ([], []) := by
    rw [scan_directory, hw]
    rfl
  have hmain : main avail env fs db false algorithm
      = MainResult.checkDone [] (keys old_hashes) [] [] := by
    rw [main, if_neg (fun hh => hh halg), if_neg Bool.false_ne_true, hdb]
    simp only [hscan, compare_hashes_empty_current]
  exact ⟨hscan, hmain, by rw [hmain]; rfl⟩

theorem claim_C7_root_error_recovered_witness :
    (FS.mk false ["/r/gone"]).rootExists = false ∧
    "sha256" ∈ ["sha256"] ∧
    load_hashes (some (save_hashes [("a", "h1")])) = some [("a", "h1")] ∧
    (scan_directory mockEnv ⟨false, ["/r/gone"]⟩ "sha256" = ([], []) ∧
     main ["sha256"] mockEnv ⟨false, ["/r/gone"]⟩ (some (save_hashes [("a", "h1")]))
        false "sha256" = MainResult.checkDone [] (keys [("a", "h1")]) [] [] ∧
     exit_code (main ["sha256"] mockEnv ⟨false, ["/r/gone"]⟩
        (some (save_hashes [("a", "h1")])) false "sha256") = 0) :=
  ⟨rfl, by decide, rfl,
    claim_C7_root_error_recovered ["sha256"] mockEnv ⟨false, ["/r/gone"]⟩
      (some (save_hashes [("a", "h1")])) [("a", "h1")] "sha256" rfl (by decide) rfl⟩

end FIM
